import Mathlib

/-!
# Verification of the FAQ RAG core (`rag_core.py`, `mcp_server.py`)

Shallow embedding of the retrieval pipeline of the repository:

* `_chunk_text`        → `chunk_text` (over `List Char`; Python `str.strip`
  is modelled by `trimChars`, the regex split
  `re.split(r'(?<=[.!?\n])\s+', text)` by `splitSentencesAux`/`splitSkip`);
* `_load_and_chunk_faqs` → `load_and_chunk_faqs` (the filesystem is
  abstracted as an optional `Directory` value: `none` models a missing
  directory, `Directory.files` the name/content pairs it holds);
* the `top_k` clamping of `ask_faq_core` → `clampTopK`, and the clamping
  performed by the MCP adapter `ask_faq` → `mcpClampTopK`;
* the top-k selection `np.argsort(similarities)[-top_k:][::-1]` →
  `argsortStable`/`topKIndices` (similarity scores are modelled as exact
  rationals; `np.argsort` is modelled as a *stable* ascending sort, which
  matches NumPy exactly on small arrays — its default sort is insertion
  sort below a small-array cutoff — while universal statements about the
  program are confined to consequences that hold of every correct
  ascending argsort regardless of tie order);
* `ask_faq_core` → `ask_faq_core` (the two external services — embedding
  and generation — are explicit oracle parameters, and the function
  additionally returns the final store and the trace of service calls it
  made, so that frame and "no service call" properties are statable).
-/

/-! ## Characters and whitespace -/

/-- Non-whitespace projection of a character list: the content that the
chunker is required to preserve (Python `str.strip`, the `\s+` separators
and the single-space joins only move or delete whitespace). -/
def nonWS (l : List Char) : List Char :=
  l.filter (fun c => !c.isWhitespace)

/-- Python `str.strip()` on a character list: drop leading and trailing
whitespace. -/
def trimChars (l : List Char) : List Char :=
  ((l.dropWhile Char.isWhitespace).reverse.dropWhile Char.isWhitespace).reverse

/-- Python `str.strip()` on a `String`: `trimChars` lifted through
`String.data`. -/
def strip (s : String) : String :=
  String.mk (trimChars s.data)

/-- The sentence delimiters of the regex `(?<=[.!?\n])\s+` in
`_chunk_text`: `.`, `!`, `?` and newline. -/
def isDelim (c : Char) : Bool :=
  c = '.' || c = '!' || c = '?' || c = '\n'

/-! ## Sentence splitting

`re.split(r'(?<=[.!?\n])\s+', text)`: the text is cut at every maximal
whitespace run whose immediately preceding character is a delimiter; the
whitespace run is the separator and is removed.  `splitSentencesAux l acc`
scans `l` with `acc` holding the current piece reversed (so `acc.head?` is
the preceding character, i.e. the lookbehind); `splitSkip` consumes the
remainder of a separator run. -/

mutual

def splitSentencesAux : List Char → List Char → List (List Char)
  | [], acc => [acc.reverse]
  | c :: rest, acc =>
    if (acc.head?.elim false isDelim) && c.isWhitespace then
      acc.reverse :: splitSkip rest
    else
      splitSentencesAux rest (c :: acc)
termination_by structural l => l

def splitSkip : List Char → List (List Char)
  | [] => [[]]
  | c :: rest =>
    if c.isWhitespace then splitSkip rest
    else splitSentencesAux rest [c]
termination_by structural l => l

end

def splitSentences (l : List Char) : List (List Char) :=
  splitSentencesAux l []

/-! ## Greedy accumulation

The `for sentence in sentences` loop of `_chunk_text`: strip the sentence,
skip it if empty, close the running chunk when adding the sentence would
exceed `size`, otherwise append it with a single joining space. -/

/-- One iteration of the accumulation loop; the state is
`(chunks so far, current_chunk)`. -/
def accumStep (size : ℕ) (st : List (List Char) × List Char) (sentence : List Char) :
    List (List Char) × List Char :=
  let s := trimChars sentence
  if s = [] then st
  else if st.2 ≠ [] ∧ st.2.length + s.length + 1 > size then
    (st.1 ++ [trimChars st.2], s)
  else
    (st.1, if st.2 = [] then s else st.2 ++ ' ' :: s)

/-! ## Hard split post-pass -/

/-- `for i in range(0, len(chunk), size): final_chunks.append(chunk[i:i + size].strip())`.
For `size = 0` Python `range` raises; the claims all assume
`targetSize > 0`, so that branch is modelled as returning `[]`. -/
def hardSplit (size : ℕ) (l : List Char) : List (List Char) :=
  if h1 : size = 0 then []
  else if h2 : l = [] then []
  else trimChars (l.take size) :: hardSplit size (l.drop size)
termination_by l.length
decreasing_by
  simp only [List.length_drop]
  have := List.length_pos.mpr h2
  omega

/-- The post-pass on one accumulated chunk: keep it if
`len(chunk) <= size * 1.5` (exactly `2 * len ≤ 3 * size` for integer
`size`), otherwise hard-split it. -/
def postPass (size : ℕ) (chunk : List Char) : List (List Char) :=
  if 2 * chunk.length ≤ 3 * size then [chunk]
  else hardSplit size chunk

/-! ## `_chunk_text` -/

/-- Embedding of `_chunk_text(text, size)`. -/
def chunk_text (text : List Char) (size : ℕ) : List (List Char) :=
  if trimChars text = [] then []
  else
    let t := trimChars text
    let sentences := splitSentences t
    let st := sentences.foldl (accumStep size) ([], [])
    let chunks := if trimChars st.2 = [] then st.1 else st.1 ++ [trimChars st.2]
    let final := chunks.flatMap (postPass size)
    final.filter (fun c => c ≠ [])

/-! ## Corpus loader (`_load_and_chunk_faqs`)

The filesystem is abstracted as data: `none` models a directory that does
not exist; `Directory.files` the (filename, content) pairs it contains. -/

structure Directory where
  files : List (String × String)
deriving DecidableEq

inductive LoadError where
  | notFound
  | emptyCorpus
deriving DecidableEq

/-- `faq_path.glob("*.md")`: names ending in `.md`; glob's `*` does not
match a leading dot. -/
def isMdName (name : String) : Bool :=
  (".md".data.isSuffixOf name.data) && !(name.data.head? == some '.')

/-- Embedding of `_load_and_chunk_faqs(faq_dir)`.  `notFound` models the
`FileNotFoundError` raise, `emptyCorpus` the `ValueError` for "No .md files
found"; `sorted(faq_path.glob("*.md"))` is the filename sort. -/
def load_and_chunk_faqs (dir : Option Directory) (chunkSize : ℕ) :
    Except LoadError (List (List Char) × List String) :=
  match dir with
  | none => .error .notFound
  | some d =>
    let md_files := List.insertionSort (fun a b : String × String => a.1 ≤ b.1)
      (d.files.filter (fun f => isMdName f.1))
    if md_files = [] then .error .emptyCorpus
    else
      .ok (md_files.foldl (fun acc f =>
        let chunks := chunk_text f.2.data chunkSize
        (acc.1 ++ chunks, acc.2 ++ List.replicate chunks.length f.1)) ([], []))

/-! ## Top-k clamping -/

/-- `TOP_K_DEFAULT = int(os.getenv("TOP_K_DEFAULT", "4"))`: the configured
default is 4. -/
def TOP_K_DEFAULT : Int := 4

/-- The clamping line of `ask_faq_core`:
`top_k = max(1, min(10, top_k or TOP_K_DEFAULT))`.  `none` models an absent
(`None`) argument; Python `or` replaces exactly `None` and `0` by the
default. -/
def clampTopK (top_k : Option Int) : Int :=
  let t : Int :=
    match top_k with
    | none => TOP_K_DEFAULT
    | some v => if v = 0 then TOP_K_DEFAULT else v
  max 1 (min 10 t)

/-- The clamping performed by the MCP adapter `ask_faq` in `mcp_server.py`:
`if top_k is None or top_k <= 0 or top_k > 10: top_k = 4`. -/
def mcpClampTopK (top_k : Option Int) : Int :=
  match top_k with
  | none => 4
  | some v => if v ≤ 0 || 10 < v then 4 else v

/-! ## Top-k selection

`np.argsort(similarities)[-top_k:][::-1]`.  Similarity scores are exact
rationals; `simAt` reads a score (out-of-range indices never arise from
`argsortStable`).  `np.argsort` is modelled as a stable ascending sort:
on `List.range n` (already in index order) this is the same as sorting by
the lexicographic key (score, index) ascending, which is `argRel`.

Scope of the model: NumPy's default `kind='quicksort'` is an introsort
that is insertion sort (hence stable) only below its small-array cutoff;
for larger arrays the order of equal scores is unspecified.  The model
therefore agrees with the program exactly on the small concrete arrays
evaluated below, while for arbitrary sizes only tie-insensitive
consequences (result length, non-increasing score order, distinctness,
index bounds) — which hold of every correct ascending argsort — are
claimed of the program.  The strict per-tie ordering lemma
`pairwise_topKIndices` is a fact about this model, used only to derive
the tie-insensitive bound. -/

def simAt (sims : List ℚ) (i : ℕ) : ℚ :=
  sims.getD i 0

/-- Ascending comparison used by the stable argsort model: by score, ties
by original index ascending. -/
def argRel (sims : List ℚ) (i j : ℕ) : Prop :=
  simAt sims i < simAt sims j ∨ (simAt sims i = simAt sims j ∧ i ≤ j)

instance (sims : List ℚ) : DecidableRel (argRel sims) := fun i j => by
  unfold argRel
  infer_instance

instance (sims : List ℚ) : IsTotal ℕ (argRel sims) where
  total i j := by
    unfold argRel
    rcases lt_trichotomy (simAt sims i) (simAt sims j) with h | h | h
    · exact Or.inl (Or.inl h)
    · rcases Nat.le_total i j with hij | hij
      · exact Or.inl (Or.inr ⟨h, hij⟩)
      · exact Or.inr (Or.inr ⟨h.symm, hij⟩)
    · exact Or.inr (Or.inl h)

instance (sims : List ℚ) : IsTrans ℕ (argRel sims) where
  trans i j k hij hjk := by
    unfold argRel at *
    rcases hij with h1 | ⟨e1, l1⟩
    · rcases hjk with h2 | ⟨e2, _⟩
      · exact Or.inl (h1.trans h2)
      · exact Or.inl (e2 ▸ h1)
    · rcases hjk with h2 | ⟨e2, l2⟩
      · exact Or.inl (e1 ▸ h2)
      · exact Or.inr ⟨e1.trans e2, l1.trans l2⟩

/-- `np.argsort(similarities)`: indices `0..N-1` sorted ascending by
score (stable). -/
def argsortStable (sims : List ℚ) : List ℕ :=
  List.insertionSort (argRel sims) (List.range sims.length)

/-- `np.argsort(similarities)[-top_k:][::-1]`: the last `k` entries of the
ascending argsort (all of them when `k ≥ N`), reversed. -/
def topKIndices (sims : List ℚ) (k : ℕ) : List ℕ :=
  ((argsortStable sims).drop (sims.length - k)).reverse

/-! ## `ask_faq_core`

The module-level state `_CHUNKS`, `_SOURCES`, `_CHUNK_EMBEDS` is a `Store`
(`embeds = none` models `_CHUNK_EMBEDS is None`).  The two external
services are oracle parameters (`embedQuery` for `_embed_query`,
`generate` for `_generate_answer`'s chat-completion call), and the
floating-point `_cosine_similarity` is an oracle `simFn` producing one
score per stored row.  Besides the `Except` result, the embedding returns
the store after the call (the Python function never writes the globals,
so every branch returns the store it was given) and the ordered trace of
external service calls it performed. -/

structure Store where
  chunks : List String
  sources : List String
  embeds : Option (List (List ℚ))
deriving DecidableEq

inductive RagError where
  | invalidInput
  | notInitialized
deriving DecidableEq

structure AskResult where
  answer : String
  sources : List String
deriving DecidableEq

inductive ServiceCall where
  | embedQuery (q : String)
  | generate (context question : String)
deriving DecidableEq

deriving instance DecidableEq for Except

/-- `sorted(set(top_sources))`: distinct labels, sorted lexicographically
ascending. -/
def sortedDistinct (l : List String) : List String :=
  List.insertionSort (fun a b : String => a ≤ b) l.dedup

/-- The source labels of the retrieved chunks, in rank order:
`[_SOURCES[i] for i in top_indices]`. -/
def retrievedSources (st : Store) (sims : List ℚ) (k : ℕ) : List String :=
  (topKIndices sims k).map (fun i => st.sources.getD i "")

/-- Embedding of `ask_faq_core(question, top_k)`. -/
def ask_faq_core
    (embedQuery : String → List ℚ)
    (simFn : List (List ℚ) → List ℚ → List ℚ)
    (generate : String → String → List String → String)
    (st : Store) (question : String) (top_k : Option Int) :
    Except RagError AskResult × Store × List ServiceCall :=
  let q := strip question
  if q = "" then (.error .invalidInput, st, [])
  else
    let k := clampTopK top_k
    match st.embeds with
    | none => (.error .notInitialized, st, [])
    | some embeds =>
      if st.chunks.length = 0 then (.error .notInitialized, st, [])
      else
        let query_emb := embedQuery q
        let sims := simFn embeds query_emb
        let top_indices := topKIndices sims k.toNat
        let top_sources := (topKIndices sims k.toNat).map (fun i => st.sources.getD i "")
        let context_parts := top_indices.map
          (fun i => "[From " ++ st.sources.getD i "" ++ "]\n" ++ st.chunks.getD i "")
        let context := String.intercalate "\n\n---\n\n" context_parts
        let answer := generate context q top_sources
        let distinct_sources := sortedDistinct top_sources
        (.ok ⟨answer, distinct_sources⟩, st,
          [.embedQuery q, .generate context q])

/-! ## Whitespace bookkeeping lemmas -/

lemma filter_not_dropWhile {α : Type} (p : α → Bool) (l : List α) :
    (l.dropWhile p).filter (fun c => !p c) = l.filter (fun c => !p c) := by
  induction l with
  | nil => rfl
  | cons c rest ih =>
    by_cases h : p c
    · simp [List.dropWhile_cons, h, List.filter_cons, ih]
    · simp [List.dropWhile_cons, h]

lemma nonWS_reverse (l : List Char) : nonWS l.reverse = (nonWS l).reverse := by
  simp [nonWS, List.filter_reverse]

lemma nonWS_trimChars (l : List Char) : nonWS (trimChars l) = nonWS l := by
  unfold trimChars
  rw [nonWS_reverse, nonWS, filter_not_dropWhile, ← nonWS, nonWS_reverse,
    List.reverse_reverse, nonWS, filter_not_dropWhile]
  rfl

lemma trimChars_eq_nil_iff (l : List Char) : trimChars l = [] ↔ nonWS l = [] := by
  constructor
  · intro h
    have := nonWS_trimChars l
    rw [h] at this
    exact this.symm
  · intro h
    have hall : ∀ c ∈ l, c.isWhitespace := by
      intro c hc
      by_contra hw
      have : c ∈ nonWS l := by
        simp [nonWS, List.mem_filter, hc, hw]
      simp [h] at this
    unfold trimChars
    rw [List.dropWhile_eq_nil_iff.mpr hall]
    rfl

lemma nonWS_nil : nonWS [] = [] := rfl

lemma nonWS_cons (c : Char) (l : List Char) :
    nonWS (c :: l) = if c.isWhitespace then nonWS l else c :: nonWS l := by
  by_cases h : c.isWhitespace <;> simp [nonWS, List.filter_cons, h]

lemma nonWS_append (a b : List Char) : nonWS (a ++ b) = nonWS a ++ nonWS b := by
  simp [nonWS, List.filter_append]

lemma length_trimChars_le (l : List Char) : (trimChars l).length ≤ l.length := by
  unfold trimChars
  calc ((l.dropWhile Char.isWhitespace).reverse.dropWhile Char.isWhitespace).reverse.length
      = ((l.dropWhile Char.isWhitespace).reverse.dropWhile Char.isWhitespace).length := by
        rw [List.length_reverse]
    _ ≤ (l.dropWhile Char.isWhitespace).reverse.length :=
        (List.dropWhile_sublist _).length_le
    _ = (l.dropWhile Char.isWhitespace).length := by rw [List.length_reverse]
    _ ≤ l.length := (List.dropWhile_sublist _).length_le

/-! ## Sentence splitting preserves non-whitespace content -/

/-- Joint strong induction for the mutual pair: the flattened pieces of
`splitSentencesAux l acc` carry exactly the non-whitespace of
`acc.reverse ++ l`, and those of `splitSkip l` exactly the non-whitespace
of `l` (the separators removed by the split are whitespace only). -/
lemma nonWS_split_strong : ∀ n : ℕ, ∀ l : List Char, l.length ≤ n →
    (∀ acc : List Char,
      nonWS (splitSentencesAux l acc).flatten = nonWS acc.reverse ++ nonWS l)
    ∧ nonWS (splitSkip l).flatten = nonWS l := by
  intro n
  induction n with
  | zero =>
    intro l hl
    have : l = [] := List.length_eq_zero.mp (Nat.le_zero.mp hl)
    subst this
    constructor
    · intro acc
      simp [splitSentencesAux, nonWS_nil]
    · simp [splitSkip, nonWS_nil]
  | succ n ih =>
    intro l hl
    match l with
    | [] =>
      constructor
      · intro acc
        simp [splitSentencesAux, nonWS_nil]
      · simp [splitSkip, nonWS_nil]
    | c :: rest =>
      have hrest : rest.length ≤ n := by
        simpa using Nat.lt_succ_iff.mp (Nat.lt_of_lt_of_le (by simp) hl)
      constructor
      · intro acc
        rw [splitSentencesAux]
        by_cases h : (acc.head?.elim false isDelim) && c.isWhitespace
        · have hws : c.isWhitespace := by
            rcases Bool.and_eq_true_iff.mp h with ⟨_, h2⟩
            exact h2
          rw [if_pos h, List.flatten_cons, nonWS_append, (ih rest hrest).2,
            nonWS_cons, if_pos hws]
        · rw [if_neg h, (ih rest hrest).1 (c :: acc)]
          rw [List.reverse_cons, nonWS_append, nonWS_cons]
          by_cases hws : c.isWhitespace
          · simp [nonWS_cons, hws, nonWS_nil]
          · simp [nonWS_cons, hws, nonWS_nil]
      · rw [splitSkip]
        by_cases hws : c.isWhitespace
        · rw [if_pos hws, (ih rest hrest).2, nonWS_cons, if_pos hws]
        · rw [if_neg hws, (ih rest hrest).1 [c], nonWS_cons, if_neg hws]
          simp [nonWS_cons, hws, nonWS_nil]

lemma nonWS_flatten_splitSentences (l : List Char) :
    nonWS (splitSentences l).flatten = nonWS l := by
  have := (nonWS_split_strong l.length l le_rfl).1 []
  simpa [splitSentences, nonWS_nil] using this

/-! ## The accumulation loop preserves non-whitespace content -/

lemma nonWS_accumStep (size : ℕ) (st : List (List Char) × List Char) (x : List Char) :
    nonWS ((accumStep size st x).1.flatten ++ (accumStep size st x).2)
      = nonWS (st.1.flatten ++ st.2) ++ nonWS x := by
  unfold accumStep
  by_cases h0 : trimChars x = []
  · rw [if_pos h0]
    have : nonWS x = [] := (trimChars_eq_nil_iff x).mp h0
    simp [this]
  · rw [if_neg h0]
    have hx : nonWS (trimChars x) = nonWS x := nonWS_trimChars x
    by_cases h1 : st.2 ≠ [] ∧ st.2.length + (trimChars x).length + 1 > size
    · rw [if_pos h1]
      simp only [List.flatten_append, List.flatten_cons, List.flatten_nil,
        List.append_nil, nonWS_append, nonWS_trimChars, hx]
    · rw [if_neg h1]
      by_cases h2 : st.2 = []
      · rw [if_pos h2]
        simp [h2, nonWS_append, hx, nonWS_nil]
      · rw [if_neg h2]
        simp only [nonWS_append, nonWS_cons, Char.isWhitespace, hx]
        simp [List.append_assoc]

lemma nonWS_accumFold (size : ℕ) (sents : List (List Char))
    (st : List (List Char) × List Char) :
    nonWS ((sents.foldl (accumStep size) st).1.flatten
        ++ (sents.foldl (accumStep size) st).2)
      = nonWS (st.1.flatten ++ st.2) ++ nonWS sents.flatten := by
  induction sents generalizing st with
  | nil => simp [nonWS_nil]
  | cons x rest ih =>
    rw [List.foldl_cons, ih, nonWS_accumStep, List.flatten_cons, nonWS_append]
    simp [nonWS_append, List.append_assoc]

/-- Every chunk the accumulation loop stores is the `trimChars` image of
something (the loop only appends `current_chunk.strip()`). -/
lemma accumFold_trimmed (size : ℕ) (sents : List (List Char))
    (st : List (List Char) × List Char)
    (h : ∀ c ∈ st.1, ∃ d, c = trimChars d) :
    ∀ c ∈ (sents.foldl (accumStep size) st).1, ∃ d, c = trimChars d := by
  induction sents generalizing st with
  | nil => exact h
  | cons x rest ih =>
    rw [List.foldl_cons]
    apply ih
    unfold accumStep
    by_cases h0 : trimChars x = []
    · rw [if_pos h0]; exact h
    · rw [if_neg h0]
      by_cases h1 : st.2 ≠ [] ∧ st.2.length + (trimChars x).length + 1 > size
      · rw [if_pos h1]
        intro c hc
        rcases List.mem_append.mp hc with hc | hc
        · exact h c hc
        · rcases List.mem_singleton.mp hc with rfl
          exact ⟨st.2, rfl⟩
      · rw [if_neg h1]; exact h

/-! ## Hard split -/

lemma hardSplit_nil (size : ℕ) : hardSplit size [] = [] := by
  rw [hardSplit]
  split <;> simp

lemma mem_hardSplit_aux (size : ℕ) : ∀ n : ℕ, ∀ l : List Char, l.length ≤ n →
    ∀ c ∈ hardSplit size l, ∃ d : List Char, c = trimChars d ∧ d.length ≤ size := by
  intro n
  induction n with
  | zero =>
    intro l hl c hc
    have : l = [] := List.length_eq_zero.mp (Nat.le_zero.mp hl)
    subst this
    rw [hardSplit_nil] at hc
    exact absurd hc (List.not_mem_nil c)
  | succ n ih =>
    intro l hl c hc
    rw [hardSplit] at hc
    split at hc
    · exact absurd hc (List.not_mem_nil c)
    · split at hc
      · exact absurd hc (List.not_mem_nil c)
      · rename_i h1 h2
        rcases List.mem_cons.mp hc with rfl | hc'
        · exact ⟨l.take size, rfl, by simp⟩
        · have hlen : (l.drop size).length ≤ n := by
            rw [List.length_drop]
            omega
          exact ih (l.drop size) hlen c hc'

lemma mem_hardSplit (size : ℕ) (l : List Char) :
    ∀ c ∈ hardSplit size l, ∃ d : List Char, c = trimChars d ∧ d.length ≤ size :=
  mem_hardSplit_aux size l.length l le_rfl

lemma nonWS_flatten_hardSplit_aux (size : ℕ) (hs : 0 < size) :
    ∀ n : ℕ, ∀ l : List Char, l.length ≤ n → l ≠ [] →
      nonWS (hardSplit size l).flatten = nonWS l := by
  intro n
  induction n with
  | zero =>
    intro l hl hne
    exact absurd (List.length_eq_zero.mp (Nat.le_zero.mp hl)) hne
  | succ n ih =>
    intro l hl hne
    rw [hardSplit, dif_neg (by omega : ¬ size = 0), dif_neg hne]
    rw [List.flatten_cons, nonWS_append, nonWS_trimChars]
    by_cases hd : l.drop size = []
    · rw [hd, hardSplit_nil]
      simp only [List.flatten_nil, List.append_nil]
      conv_rhs => rw [← List.take_append_drop size l, hd]
      simp [nonWS_nil]
    · have hlen : (l.drop size).length ≤ n := by
        rw [List.length_drop]
        have := List.length_pos.mpr hne
        omega
      rw [ih (l.drop size) hlen hd]
      rw [← nonWS_append, List.take_append_drop]

lemma nonWS_flatten_hardSplit (size : ℕ) (hs : 0 < size) (l : List Char) :
    nonWS (hardSplit size l).flatten = nonWS l := by
  by_cases hne : l = []
  · subst hne
    rw [hardSplit_nil]
    rfl
  · exact nonWS_flatten_hardSplit_aux size hs l.length l le_rfl hne

/-! ## Post-pass -/

lemma mem_postPass_bound (size : ℕ) (ch : List Char) :
    ∀ c ∈ postPass size ch, 2 * c.length ≤ 3 * size ∨ c.length ≤ size := by
  intro c hc
  unfold postPass at hc
  split at hc
  · rcases List.mem_singleton.mp hc with rfl
    left
    assumption
  · rcases mem_hardSplit size ch c hc with ⟨d, rfl, hd⟩
    right
    exact le_trans (length_trimChars_le d) hd

lemma mem_postPass_trimmed (size : ℕ) (ch : List Char)
    (h : ∃ d, ch = trimChars d) :
    ∀ c ∈ postPass size ch, ∃ d, c = trimChars d := by
  intro c hc
  unfold postPass at hc
  split at hc
  · rcases List.mem_singleton.mp hc with rfl
    exact h
  · rcases mem_hardSplit size ch c hc with ⟨d, rfl, _⟩
    exact ⟨d, rfl⟩

lemma nonWS_flatten_postPass (size : ℕ) (hs : 0 < size) (ch : List Char) :
    nonWS (postPass size ch).flatten = nonWS ch := by
  unfold postPass
  split
  · simp
  · exact nonWS_flatten_hardSplit size hs ch

lemma nonWS_flatten_flatMap_postPass (size : ℕ) (hs : 0 < size)
    (L : List (List Char)) :
    nonWS (L.flatMap (postPass size)).flatten = nonWS L.flatten := by
  induction L with
  | nil => rfl
  | cons ch rest ih =>
    rw [List.flatMap_cons, List.flatten_append, nonWS_append, ih,
      nonWS_flatten_postPass size hs, List.flatten_cons, nonWS_append]

/-- Removing empty chunks does not change the concatenation. -/
lemma flatten_filter_ne_nil {α : Type} [DecidableEq α] (L : List (List α)) :
    (L.filter (fun c => c ≠ [])).flatten = L.flatten := by
  induction L with
  | nil => rfl
  | cons c rest ih =>
    simp only [List.filter_cons, ne_eq]
    by_cases h : c = []
    · subst h
      simpa using ih
    · simpa [h] using ih

/-- Elements of the chunk list handed to the post-pass are `strip()`
images. -/
lemma chunks2_trimmed (size : ℕ) (sents : List (List Char)) :
    ∀ ch ∈ (if trimChars (sents.foldl (accumStep size) ([], [])).2 = []
        then (sents.foldl (accumStep size) ([], [])).1
        else (sents.foldl (accumStep size) ([], [])).1
          ++ [trimChars (sents.foldl (accumStep size) ([], [])).2]),
      ∃ d, ch = trimChars d := by
  intro ch hch
  have hbase : ∀ c ∈ (sents.foldl (accumStep size) (([], []) : List (List Char) × List Char)).1,
      ∃ d, c = trimChars d :=
    accumFold_trimmed size sents ([], []) (by intro c hc; simp at hc)
  split at hch
  · exact hbase ch hch
  · rcases List.mem_append.mp hch with h | h
    · exact hbase ch h
    · rcases List.mem_singleton.mp h with rfl
      exact ⟨_, rfl⟩

/-- C5: every chunk returned by `_chunk_text` has length at most
`1.5 × size` (stated exactly as `2 * len ≤ 3 * size`). -/
theorem C5_no_chunk_exceeds_bound (text : List Char) (size : ℕ) (hs : 0 < size) :
    ∀ c ∈ chunk_text text size, 2 * c.length ≤ 3 * size := by
  intro c hc
  unfold chunk_text at hc
  by_cases h0 : trimChars text = []
  · rw [if_pos h0] at hc
    exact absurd hc (List.not_mem_nil c)
  · rw [if_neg h0] at hc
    simp only [List.mem_filter] at hc
    rcases List.mem_flatMap.mp hc.1 with ⟨ch, _, hcp⟩
    rcases mem_postPass_bound size ch c hcp with h | h
    · exact h
    · omega

/-- Witness for C5: the bound holds of a concrete chunk produced from a
concrete text at target size 4. -/
theorem C5_no_chunk_exceeds_bound_witness :
    2 * ("Three?".data).length ≤ 3 * 4 :=
  C5_no_chunk_exceeds_bound "One. Two! Three?".data 4 (by decide)
    "Three?".data (by decide)

/-- C6: concatenating the chunks of `_chunk_text`, in order, reproduces
the input text exactly up to whitespace: the non-whitespace character
sequences coincide. -/
theorem C6_chunks_reconstruct_text (text : List Char) (size : ℕ) (hs : 0 < size) :
    nonWS (chunk_text text size).flatten = nonWS text := by
  by_cases h0 : trimChars text = []
  · rw [chunk_text, if_pos h0]
    rw [(trimChars_eq_nil_iff text).mp h0]
    rfl
  · rw [chunk_text, if_neg h0]
    simp only []
    rw [flatten_filter_ne_nil, nonWS_flatten_flatMap_postPass size hs]
    have hsplit :
        nonWS (if trimChars ((splitSentences (trimChars text)).foldl (accumStep size) ([], [])).2 = []
          then ((splitSentences (trimChars text)).foldl (accumStep size) ([], [])).1
          else ((splitSentences (trimChars text)).foldl (accumStep size) ([], [])).1
            ++ [trimChars ((splitSentences (trimChars text)).foldl (accumStep size) ([], [])).2]).flatten
          = nonWS (((splitSentences (trimChars text)).foldl (accumStep size) ([], [])).1.flatten
            ++ ((splitSentences (trimChars text)).foldl (accumStep size) ([], [])).2) := by
      split
      · rename_i ht
        rw [nonWS_append, (trimChars_eq_nil_iff _).mp ht, List.append_nil]
      · rw [List.flatten_append, List.flatten_cons, List.flatten_nil, List.append_nil,
          nonWS_append, nonWS_append, nonWS_trimChars]
    rw [hsplit, nonWS_accumFold]
    rw [nonWS_flatten_splitSentences, nonWS_trimChars]
    rfl

/-- Witness for C6 at a concrete text and target size. -/
theorem C6_chunks_reconstruct_text_witness :
    nonWS (chunk_text "Hello world. This is a test! And more.".data 12).flatten
      = nonWS "Hello world. This is a test! And more.".data :=
  C6_chunks_reconstruct_text "Hello world. This is a test! And more.".data 12 (by decide)

/-- C7: every returned chunk is non-empty after trimming, and an empty or
whitespace-only input yields no chunks at all. -/
theorem C7_chunks_nonempty_after_trim (text : List Char) (size : ℕ) (hs : 0 < size) :
    (∀ c ∈ chunk_text text size, trimChars c ≠ []) ∧
      (trimChars text = [] → chunk_text text size = []) := by
  constructor
  · intro c hc
    unfold chunk_text at hc
    by_cases h0 : trimChars text = []
    · rw [if_pos h0] at hc
      exact absurd hc (List.not_mem_nil c)
    · rw [if_neg h0] at hc
      simp only [List.mem_filter, ne_eq, decide_not] at hc
      have hcne : c ≠ [] := by
        intro h
        rcases hc with ⟨_, hdec⟩
        simp [h] at hdec
      rcases List.mem_flatMap.mp hc.1 with ⟨ch, hch, hcp⟩
      have hch_tr : ∃ d, ch = trimChars d := chunks2_trimmed size _ ch hch
      rcases mem_postPass_trimmed size ch hch_tr c hcp with ⟨d, rfl⟩
      intro habs
      have h1 : nonWS (trimChars d) = [] := (trimChars_eq_nil_iff (trimChars d)).mp habs
      rw [nonWS_trimChars] at h1
      exact hcne ((trimChars_eq_nil_iff d).mpr h1)
  · intro h0
    rw [chunk_text, if_pos h0]

/-- Witness for C7: a concrete returned chunk has positive length after
trimming. -/
theorem C7_chunks_nonempty_after_trim_witness :
    0 < (trimChars "One.".data).length :=
  List.length_pos.mpr
    ((C7_chunks_nonempty_after_trim "  One. Two! Three?  ".data 4 (by decide)).1
      "One.".data (by decide))

/-! ## Retrieval: the top-k selection -/

lemma length_topKIndices (sims : List ℚ) (k : ℕ) :
    (topKIndices sims k).length = min k sims.length := by
  unfold topKIndices argsortStable
  rw [List.length_reverse, List.length_drop, List.length_insertionSort,
    List.length_range]
  omega

lemma nodup_topKIndices (sims : List ℚ) (k : ℕ) :
    (topKIndices sims k).Nodup := by
  unfold topKIndices
  rw [List.nodup_reverse]
  refine (List.drop_sublist _ _).nodup ?_
  exact (List.perm_insertionSort (argRel sims) (List.range sims.length)).symm.nodup
    (List.nodup_range _)

lemma mem_topKIndices_lt (sims : List ℚ) (k : ℕ) :
    ∀ i ∈ topKIndices sims k, i < sims.length := by
  intro i hi
  unfold topKIndices at hi
  rw [List.mem_reverse] at hi
  have h1 : i ∈ argsortStable sims := (List.drop_sublist _ _).mem hi
  have h2 : i ∈ List.range sims.length :=
    (List.perm_insertionSort (argRel sims) (List.range sims.length)).mem_iff.mp h1
  exact List.mem_range.mp h2

/-- The selected indices are ordered by strictly descending score with
ties broken by strictly descending original corpus index. -/
lemma pairwise_topKIndices (sims : List ℚ) (k : ℕ) :
    (topKIndices sims k).Pairwise
      (fun i j => simAt sims j < simAt sims i
        ∨ (simAt sims i = simAt sims j ∧ j < i)) := by
  have hsorted : List.Pairwise (argRel sims) (argsortStable sims) :=
    List.sorted_insertionSort (argRel sims) (List.range sims.length)
  have hdrop : List.Pairwise (argRel sims)
      ((argsortStable sims).drop (sims.length - k)) :=
    List.Pairwise.sublist (List.drop_sublist _ _) hsorted
  have hrev : List.Pairwise (fun i j => argRel sims j i) (topKIndices sims k) :=
    List.pairwise_reverse.mpr hdrop
  have hne : List.Pairwise (fun i j : ℕ => i ≠ j) (topKIndices sims k) :=
    nodup_topKIndices sims k
  refine (hrev.and hne).imp ?_
  rintro i j ⟨hr, hij⟩
  rcases hr with h | ⟨heq, hle⟩
  · exact Or.inl h
  · exact Or.inr ⟨heq.symm, lt_of_le_of_ne hle (fun h => hij h.symm)⟩

/-- C1 (amended): for similarity scores over the stored corpus and `k`
normalized to `[1,10]`, the retrieval step returns exactly `min(k, N)`
distinct valid indices ordered by non-increasing similarity.  These
universal conjuncts are insensitive to how `np.argsort` orders equal
scores — they hold of *every* correct ascending argsort, stable or not —
so proving them of the stable model establishes them for the program at
every corpus size.  The tie order itself is deterministic for a fixed
input but is **not** lowest-index-first: the final conjunct records the
program's actual output for two equal-similarity chunks (an array size
at which NumPy's sort is insertion sort, hence exactly the model): the
lower corpus index appears *later*. -/
theorem C1_topk_selection (sims : List ℚ) (k : ℕ) (h1 : 1 ≤ k) (h2 : k ≤ 10) :
    (topKIndices sims k).length = min k sims.length ∧
    (topKIndices sims k).Pairwise
      (fun i j => simAt sims j ≤ simAt sims i) ∧
    (topKIndices sims k).Nodup ∧
    (∀ i ∈ topKIndices sims k, i < sims.length) ∧
    topKIndices [(1:ℚ), 1] 2 = [1, 0] :=
  ⟨length_topKIndices sims k,
    (pairwise_topKIndices sims k).imp (fun h => by
      rcases h with h | ⟨heq, _⟩
      · exact le_of_lt h
      · exact le_of_eq heq.symm),
    nodup_topKIndices sims k, mem_topKIndices_lt sims k, by decide⟩

/-- Witness for C1 at a concrete score list (with a tie between indices 1
and 2). -/
theorem C1_topk_selection_witness :
    (topKIndices [(5:ℚ), 3, 3, 1] 3).length = min 3 [(5:ℚ), 3, 3, 1].length ∧
    (topKIndices [(5:ℚ), 3, 3, 1] 3).Pairwise
      (fun i j => simAt [(5:ℚ), 3, 3, 1] j ≤ simAt [(5:ℚ), 3, 3, 1] i) ∧
    (topKIndices [(5:ℚ), 3, 3, 1] 3).Nodup ∧
    2 < [(5:ℚ), 3, 3, 1].length ∧
    topKIndices [(1:ℚ), 1] 2 = [1, 0] :=
  let H := C1_topk_selection [(5:ℚ), 3, 3, 1] 3 (by decide) (by decide)
  ⟨H.1, H.2.1, H.2.2.1, H.2.2.2.1 2 (by decide), H.2.2.2.2⟩

/-- Counterexample to C1 as stated: with two stored chunks of equal
similarity and `k = 2`, the retrieval step returns `[1, 0]` — the chunk
with the **lower** corpus index appears *later*, not earlier. -/
theorem C1_tie_break_counterexample :
    simAt [(1:ℚ), 1] 0 = simAt [(1:ℚ), 1] 1 ∧
    topKIndices [(1:ℚ), 1] 2 = [1, 0] ∧
    topKIndices [(1:ℚ), 1] 2 ≠ [0, 1] := by
  refine ⟨by decide, by decide, by decide⟩

/-! ## Top-k clamping (C2) -/

lemma clampTopK_range (t : Option Int) : 1 ≤ clampTopK t ∧ clampTopK t ≤ 10 := by
  unfold clampTopK TOP_K_DEFAULT
  rcases t with _ | v
  · constructor <;> simp [Int.max_def, Int.min_def]
  · by_cases h : v = 0 <;>
      simp only [h, if_true, if_false, Int.max_def, Int.min_def] <;>
      split_ifs <;> omega

/-- C2 (amended): the value used for retrieval always lies in `[1,10]`.
In the core (`ask_faq_core`), an absent or zero `top_k` becomes the
default 4 and a value above 10 is clamped to 10, but a **negative** value
is clamped to 1, not replaced by the default.  The MCP adapter
(`ask_faq`) instead replaces absent, non-positive and above-10 values all
by 4 before calling the core, which then passes them through unchanged. -/
theorem C2_topk_clamping (t : Option Int) :
    (1 ≤ clampTopK t ∧ clampTopK t ≤ 10) ∧
    clampTopK none = TOP_K_DEFAULT ∧
    clampTopK (some 0) = TOP_K_DEFAULT ∧
    (∀ v : Int, 10 < v → clampTopK (some v) = 10) ∧
    (∀ v : Int, v < 0 → clampTopK (some v) = 1) ∧
    (1 ≤ mcpClampTopK t ∧ mcpClampTopK t ≤ 10) ∧
    (∀ v : Int, 10 < v → mcpClampTopK (some v) = 4) ∧
    (∀ v : Int, v ≤ 0 → mcpClampTopK (some v) = 4) ∧
    clampTopK (some (mcpClampTopK t)) = mcpClampTopK t := by
  have hmcp : 1 ≤ mcpClampTopK t ∧ mcpClampTopK t ≤ 10 := by
    rcases t with _ | v
    · exact ⟨by decide, by decide⟩
    · simp only [mcpClampTopK]
      split_ifs with h
      · exact ⟨by decide, by decide⟩
      · simp only [Bool.or_eq_true, decide_eq_true_eq] at h
        push_neg at h
        exact ⟨by omega, by omega⟩
  refine ⟨clampTopK_range t, by decide, by decide, ?_, ?_, hmcp, ?_, ?_, ?_⟩
  · intro v hv
    unfold clampTopK TOP_K_DEFAULT
    have h0 : ¬ v = 0 := by omega
    simp only [h0, if_false, Int.max_def, Int.min_def]
    split_ifs <;> omega
  · intro v hv
    unfold clampTopK TOP_K_DEFAULT
    have h0 : ¬ v = 0 := by omega
    simp only [h0, if_false, Int.max_def, Int.min_def]
    split_ifs <;> omega
  · intro v hv
    have h : (decide (v ≤ 0) || decide (10 < v)) = true := by
      simp only [Bool.or_eq_true, decide_eq_true_eq]
      omega
    simp [mcpClampTopK, h]
  · intro v hv
    have h : (decide (v ≤ 0) || decide (10 < v)) = true := by
      simp only [Bool.or_eq_true, decide_eq_true_eq]
      omega
    simp [mcpClampTopK, h]
  · rcases hmcp with ⟨ha, hb⟩
    unfold clampTopK TOP_K_DEFAULT
    have h0 : ¬ mcpClampTopK t = 0 := by omega
    simp only [h0, if_false, Int.max_def, Int.min_def]
    split_ifs <;> omega

/-- Witness for C2 at concrete `top_k` values. -/
theorem C2_topk_clamping_witness :
    clampTopK (some 15) = 10 ∧ clampTopK (some (-5)) = 1 ∧
      mcpClampTopK (some 15) = 4 :=
  ⟨(C2_topk_clamping (some 15)).2.2.2.1 15 (by decide),
    (C2_topk_clamping (some 0)).2.2.2.2.1 (-5) (by decide),
    (C2_topk_clamping (some 15)).2.2.2.2.2.2.1 15 (by decide)⟩

/-- Counterexample to C2 as stated: a negative `top_k` is *not* replaced
by the configured default 4 — the core clamps it to 1; and through the
MCP adapter a `top_k` above 10 becomes 4, not 10. -/
theorem C2_counterexample :
    clampTopK (some (-5)) = 1 ∧ clampTopK (some (-5)) ≠ TOP_K_DEFAULT ∧
      mcpClampTopK (some 15) = 4 ∧ mcpClampTopK (some 15) ≠ 10 := by
  refine ⟨by decide, by decide, by decide, by decide⟩

/-! ## Question validation and the frame property of `ask_faq_core` -/

/-- C3: a question that is empty after trimming is rejected with
`InvalidInputError` before any service call is made and with the store
untouched; a question that is non-empty after trimming never produces
that error. -/
theorem C3_empty_question_rejected
    (embedQuery : String → List ℚ)
    (simFn : List (List ℚ) → List ℚ → List ℚ)
    (generate : String → String → List String → String)
    (st : Store) (question : String) (top_k : Option Int) :
    (strip question = "" →
      ask_faq_core embedQuery simFn generate st question top_k
        = (.error .invalidInput, st, [])) ∧
    (strip question ≠ "" →
      (ask_faq_core embedQuery simFn generate st question top_k).1
        ≠ .error .invalidInput) := by
  constructor
  · intro h
    unfold ask_faq_core
    rw [if_pos h]
  · intro h
    unfold ask_faq_core
    rw [if_neg h]
    cases hE : st.embeds with
    | none => simp
    | some E =>
      simp only []
      split_ifs with hc
      · simp
      · simp

/-- Witness for C3: a whitespace-only question is rejected, with no
service call and the store unchanged, while a plain question does not
produce `invalidInput`. -/
theorem C3_empty_question_rejected_witness :
    ask_faq_core (fun _ => [1]) (fun E _ => E.map (fun _ => (1:ℚ)))
        (fun _ _ _ => "ans") ⟨["c1"], ["b.md"], some [[1]]⟩ "   " (some 4)
        = (.error .invalidInput, ⟨["c1"], ["b.md"], some [[1]]⟩, []) ∧
    decide ((ask_faq_core (fun _ => [1]) (fun E _ => E.map (fun _ => (1:ℚ)))
        (fun _ _ _ => "ans") ⟨["c1"], ["b.md"], some [[1]]⟩ "hi" (some 4)).1
        = Except.error RagError.invalidInput) = false :=
  ⟨(C3_empty_question_rejected (fun _ => [1]) (fun E _ => E.map (fun _ => (1:ℚ)))
      (fun _ _ _ => "ans") ⟨["c1"], ["b.md"], some [[1]]⟩ "   " (some 4)).1 (by decide),
    decide_eq_false
      ((C3_empty_question_rejected (fun _ => [1]) (fun E _ => E.map (fun _ => (1:ℚ)))
        (fun _ _ _ => "ans") ⟨["c1"], ["b.md"], some [[1]]⟩ "hi" (some 4)).2 (by decide))⟩

/-- C9: `ask_faq_core` never mutates the store — on every path, success
or failure, the store component of the result is the store it was
given. -/
theorem C9_ask_leaves_store_unchanged
    (embedQuery : String → List ℚ)
    (simFn : List (List ℚ) → List ℚ → List ℚ)
    (generate : String → String → List String → String)
    (st : Store) (question : String) (top_k : Option Int) :
    (ask_faq_core embedQuery simFn generate st question top_k).2.1 = st := by
  unfold ask_faq_core
  by_cases hq : strip question = ""
  · rw [if_pos hq]
  · rw [if_neg hq]
    cases st.embeds with
    | none => rfl
    | some E =>
      simp only []
      split_ifs <;> rfl

/-! ## Result sources (C4, C10) -/

lemma sorted_sortedDistinct (l : List String) :
    (sortedDistinct l).Sorted (fun a b : String => a ≤ b) :=
  List.sorted_insertionSort _ _

lemma nodup_sortedDistinct (l : List String) : (sortedDistinct l).Nodup :=
  (List.perm_insertionSort _ _).symm.nodup (List.nodup_dedup l)

lemma mem_sortedDistinct (l : List String) (s : String) :
    s ∈ sortedDistinct l ↔ s ∈ l := by
  unfold sortedDistinct
  rw [List.mem_insertionSort, List.mem_dedup]

lemma sortedDistinct_ne_nil (l : List String) (h : l ≠ []) :
    sortedDistinct l ≠ [] := by
  intro hc
  apply h
  have hlen := congrArg List.length hc
  rw [sortedDistinct, List.length_insertionSort] at hlen
  exact (List.dedup_eq_nil l).mp (List.length_eq_zero.mp hlen)

/-- On every successful call, the returned `sources` field is
`sorted(set(top_sources))` for the retrieved source labels, and the
corpus was non-empty. -/
lemma ask_success_facts
    (embedQuery : String → List ℚ)
    (simFn : List (List ℚ) → List ℚ → List ℚ)
    (generate : String → String → List String → String)
    (st : Store) (question : String) (top_k : Option Int)
    (r : AskResult) (st' : Store) (tr : List ServiceCall)
    (h : ask_faq_core embedQuery simFn generate st question top_k = (.ok r, st', tr))
    (E : List (List ℚ)) (hE : st.embeds = some E) :
    r.sources = sortedDistinct
      ((topKIndices (simFn E (embedQuery (strip question))) (clampTopK top_k).toNat).map
        (fun i => st.sources.getD i ""))
      ∧ st.chunks.length ≠ 0 := by
  unfold ask_faq_core at h
  by_cases hq : strip question = ""
  · rw [if_pos hq] at h
    exact absurd (congrArg Prod.fst h) (by simp)
  · rw [if_neg hq] at h
    simp only [hE] at h
    by_cases hc : st.chunks.length = 0
    · rw [if_pos hc] at h
      exact absurd (congrArg Prod.fst h) (by simp)
    · rw [if_neg hc] at h
      have h1 := congrArg Prod.fst h
      simp only [Except.ok.injEq] at h1
      subst h1
      exact ⟨rfl, hc⟩

/-- C4: on every successful ask, the returned sources list is sorted
ascending, duplicate-free, and contains exactly the source labels of the
retrieved chunks; in particular retrieved labels
`["b.md","a.md","a.md"]` yield `["a.md","b.md"]`. -/
theorem C4_sources_sorted_distinct
    (embedQuery : String → List ℚ)
    (simFn : List (List ℚ) → List ℚ → List ℚ)
    (generate : String → String → List String → String)
    (st : Store) (question : String) (top_k : Option Int)
    (r : AskResult) (st' : Store) (tr : List ServiceCall)
    (h : ask_faq_core embedQuery simFn generate st question top_k = (.ok r, st', tr))
    (E : List (List ℚ)) (hE : st.embeds = some E) :
    r.sources.Sorted (fun a b : String => a ≤ b) ∧
    r.sources.Nodup ∧
    (∀ s, s ∈ r.sources ↔
      s ∈ (topKIndices (simFn E (embedQuery (strip question))) (clampTopK top_k).toNat).map
        (fun i => st.sources.getD i "")) ∧
    sortedDistinct ["b.md", "a.md", "a.md"] = ["a.md", "b.md"] := by
  have hs := (ask_success_facts embedQuery simFn generate st question top_k
    r st' tr h E hE).1
  rw [hs]
  refine ⟨sorted_sortedDistinct _, nodup_sortedDistinct _,
    fun s => mem_sortedDistinct _ s, ?_⟩
  simp only [sortedDistinct, List.dedup, List.pwFilter, List.insertionSort,
    List.orderedInsert]
  norm_num [String.le_iff_toList_le]
  decide

/-- Witness for C4 at a fully concrete successful ask. -/
theorem C4_sources_sorted_distinct_witness :
    (["b.md"] : List String).Sorted (fun a b : String => a ≤ b) ∧
    (["b.md"] : List String).Nodup ∧
    ("b.md" ∈ (["b.md"] : List String) ↔
      "b.md" ∈ (topKIndices [(1:ℚ)] (clampTopK (some 2)).toNat).map
        (fun i => (["b.md"] : List String).getD i "")) ∧
    sortedDistinct ["b.md", "a.md", "a.md"] = ["a.md", "b.md"] :=
  let H := C4_sources_sorted_distinct (fun _ => [1]) (fun E _ => E.map (fun _ => (1:ℚ)))
    (fun _ _ _ => "ans") ⟨["c1"], ["b.md"], some [[1]]⟩ "q" (some 2)
    ⟨"ans", ["b.md"]⟩ ⟨["c1"], ["b.md"], some [[1]]⟩
    [.embedQuery "q", .generate "[From b.md]\nc1" "q"]
    (by decide) [[1]] rfl
  ⟨H.1, H.2.1, H.2.2.1 "b.md", H.2.2.2⟩

/-- C10: whenever `ask_faq_core` returns normally on a store built by the
loader (one similarity score per stored embedding, one embedding per
chunk), the returned sources list is non-empty. -/
theorem C10_sources_nonempty_on_success
    (embedQuery : String → List ℚ)
    (simFn : List (List ℚ) → List ℚ → List ℚ)
    (generate : String → String → List String → String)
    (st : Store) (question : String) (top_k : Option Int)
    (r : AskResult) (st' : Store) (tr : List ServiceCall)
    (h : ask_faq_core embedQuery simFn generate st question top_k = (.ok r, st', tr))
    (E : List (List ℚ)) (hE : st.embeds = some E)
    (hsim : (simFn E (embedQuery (strip question))).length = E.length)
    (hwf : E.length = st.chunks.length) :
    r.sources ≠ [] := by
  obtain ⟨hsrc, hne⟩ := ask_success_facts embedQuery simFn generate st question top_k
    r st' tr h E hE
  rw [hsrc]
  apply sortedDistinct_ne_nil
  intro hmap
  have hlen := congrArg List.length hmap
  rw [List.length_map, length_topKIndices, hsim, hwf] at hlen
  have hk : 1 ≤ clampTopK top_k := (clampTopK_range top_k).1
  simp only [List.length_nil] at hlen
  omega

/-- Witness for C10 at a fully concrete successful ask. -/
theorem C10_sources_nonempty_on_success_witness :
    0 < (["b.md"] : List String).length :=
  List.length_pos.mpr
    (C10_sources_nonempty_on_success (fun _ => [1]) (fun E _ => E.map (fun _ => (1:ℚ)))
      (fun _ _ _ => "ans") ⟨["c1"], ["b.md"], some [[1]]⟩ "q" (some 2)
      ⟨"ans", ["b.md"]⟩ ⟨["c1"], ["b.md"], some [[1]]⟩
      [.embedQuery "q", .generate "[From b.md]\nc1" "q"]
      (by decide) [[1]] rfl (by decide) (by decide))

/-! ## Loader contract (C8) -/

lemma insertionSort_eq_nil_iff {α : Type} (r : α → α → Prop) [DecidableRel r]
    (l : List α) : List.insertionSort r l = [] ↔ l = [] := by
  constructor
  · intro h
    have := congrArg List.length h
    rw [List.length_insertionSort] at this
    exact List.length_eq_zero.mp this
  · intro h
    subst h
    rfl

lemma load_fold_lengths (size : ℕ) (files : List (String × String))
    (acc : List (List Char) × List String) (h : acc.1.length = acc.2.length) :
    (files.foldl (fun acc f =>
        let chunks := chunk_text f.2.data size
        (acc.1 ++ chunks, acc.2 ++ List.replicate chunks.length f.1)) acc).1.length
      = (files.foldl (fun acc f =>
        let chunks := chunk_text f.2.data size
        (acc.1 ++ chunks, acc.2 ++ List.replicate chunks.length f.1)) acc).2.length := by
  induction files generalizing acc with
  | nil => exact h
  | cons f rest ih =>
    rw [List.foldl_cons]
    apply ih
    simp [h]

/-- C8: the loader fails with `NotFoundError` exactly when the directory
is missing, with `EmptyCorpusError` exactly when it exists but holds no
matching markdown documents, and on success returns parallel lists of
equal length. -/
theorem C8_loader_contract (dir : Option Directory) (size : ℕ) :
    (load_and_chunk_faqs dir size = .error .notFound ↔ dir = none) ∧
    (∀ d, dir = some d →
      (load_and_chunk_faqs dir size = .error .emptyCorpus ↔
        d.files.filter (fun f => isMdName f.1) = [])) ∧
    (∀ cs ss, load_and_chunk_faqs dir size = .ok (cs, ss) → cs.length = ss.length) := by
  cases dir with
  | none =>
    refine ⟨⟨fun _ => rfl, fun _ => rfl⟩, ?_, ?_⟩
    · intro d hd
      exact absurd hd (by simp)
    · intro cs ss hcs
      exact absurd hcs (by simp [load_and_chunk_faqs])
  | some d =>
    refine ⟨⟨?_, ?_⟩, ?_, ?_⟩
    · intro h
      simp only [load_and_chunk_faqs] at h
      split_ifs at h <;> simp at h
    · intro h
      exact absurd h (by simp)
    · intro d' hd'
      obtain rfl : d = d' := by injection hd'
      simp only [load_and_chunk_faqs]
      split_ifs with hmd
      · rw [insertionSort_eq_nil_iff] at hmd
        simp [hmd]
      · rw [insertionSort_eq_nil_iff] at hmd
        simp [hmd]
    · intro cs ss hcs
      simp only [load_and_chunk_faqs] at hcs
      split_ifs at hcs with hmd
      case neg =>
        rw [Except.ok.injEq] at hcs
        show ((cs, ss) : List (List Char) × List String).1.length
          = ((cs, ss) : List (List Char) × List String).2.length
        rw [← hcs]
        exact load_fold_lengths size _ ([], []) rfl

/-- Witness for C8 at a concrete one-file directory: the loader succeeds
with parallel lists of equal length. -/
theorem C8_loader_contract_witness :
    ([ "Hi. Yo.".data ] : List (List Char)).length = (["a.md"] : List String).length :=
  (C8_loader_contract (some ⟨[("a.md", "Hi. Yo.")]⟩) 200).2.2
    ["Hi. Yo.".data] ["a.md"] (by decide)
